import Mathlib

/-!
# Verification of the tabular-to-series chart transformation engine

Shallow embedding of the chart-data processing code in
`src/client/components/DataChart.tsx` (variant 1, namespace `DataChart`),
the second `DataChart` variant in `src/unnamed/part_001` (namespace
`DataChartV2`), and `getDataSummary` from `src/unnamed/part_000` /
`src/unnamed/part_001` (namespace `ChartDashboard`).

Modelling conventions:
* grid cells are strings; a missing cell (a JS `undefined` index) is the
  empty string, matching `String(cell || ...)` coercions in the source;
* JS numbers are modelled as exact rationals (`ℚ`); `parseFloat` /
  `parseInt` are embedded including sign, fraction and exponent parts
  (the `Infinity` literal and binary64 rounding are outside the model);
* the `+Infinity` sentinel used by `getDataSummary` for the running
  minimum is modelled as `Option ℚ` with `none` for the sentinel;
* presentation-only dataset fields (colors, border width, fill) are not
  part of the model; a dataset is its label and its numeric values.
-/

set_option maxRecDepth 8000

/-- ASCII decimal digit test, as used by the character classes `\d` of the
source regexes. -/
def isDigitC (c : Char) : Bool := 48 ≤ c.toNat && c.toNat ≤ 57

/-- Numeric value of a digit character. -/
def charVal (c : Char) : ℕ := c.toNat - 48

/-- Whitespace characters recognised by JS `trim` / `parseFloat`
(ASCII subset of the ECMAScript WhiteSpace / LineTerminator classes). -/
def isWSChar (c : Char) : Bool :=
  c.toNat = 32 || c.toNat = 9 || c.toNat = 10 || c.toNat = 13 || c.toNat = 11 || c.toNat = 12

/-- `String.prototype.trim`: remove whitespace at both ends. -/
def trimChars (l : List Char) : List Char :=
  ((l.dropWhile isWSChar).reverse.dropWhile isWSChar).reverse

/-- `trim` on strings. -/
def trimStr (s : String) : String := ⟨trimChars s.toList⟩

/-- `String.prototype.toLowerCase` (ASCII range, which covers the
data processed by the component). -/
def lowerStr (s : String) : String := ⟨s.toList.map Char.toLower⟩

/-- `pat` occurs at the start of `s`. -/
def leadsWith : List Char → List Char → Bool
  | [], _ => true
  | _ :: _, [] => false
  | p :: ps, c :: cs => p = c && leadsWith ps cs

/-- `String.prototype.includes`: `pat` occurs contiguously in `s`. -/
def hasSub (pat : List Char) : List Char → Bool
  | [] => leadsWith pat []
  | c :: cs => leadsWith pat (c :: cs) || hasSub pat cs

/-- `s.includes(pat)` on strings. -/
def strIncludes (s pat : String) : Bool := hasSub pat.toList s.toList

/-- Left fold of decimal digit characters into a natural number. -/
def digitsToNat (ds : List Char) : ℕ := ds.foldl (fun a c => 10 * a + charVal c) 0

/-- The character filter of `replace(/[^\d.-]/g, '')`: keep digits, the
decimal point and the minus sign. -/
def stripChars (l : List Char) : List Char :=
  l.filter (fun c => isDigitC c || c = '.' || c = '-')

/-- Exponent part of a JS float literal: optional sign then a digit
prefix; `none` when no digits follow (the exponent is then ignored by
`parseFloat`, which keeps the longest valid literal prefix). -/
def parseExpDigits (l : List Char) : Option ℤ :=
  match l with
  | '+' :: rest =>
      let ds := rest.takeWhile isDigitC
      if ds.isEmpty then none else some (digitsToNat ds : ℤ)
  | '-' :: rest =>
      let ds := rest.takeWhile isDigitC
      if ds.isEmpty then none else some (-(digitsToNat ds : ℤ))
  | _ =>
      let ds := l.takeWhile isDigitC
      if ds.isEmpty then none else some (digitsToNat ds : ℤ)

/-- Apply a trailing `e`/`E` exponent part, if present and valid, to an
already-parsed mantissa, as JS `parseFloat` does. -/
def applyExp (q : ℚ) (l : List Char) : ℚ :=
  match l with
  | 'e' :: rest =>
      match parseExpDigits rest with
      | some z => q * (10 : ℚ) ^ z
      | none => q
  | 'E' :: rest =>
      match parseExpDigits rest with
      | some z => q * (10 : ℚ) ^ z
      | none => q
  | _ => q

/-- Unsigned part of JS `parseFloat`: digits with optional fraction, or a
fraction alone, followed by an optional exponent; `none` models `NaN`. -/
def parseFloatCore (s : List Char) : Option ℚ :=
  let ds := s.takeWhile isDigitC
  let r1 := s.dropWhile isDigitC
  if ds.isEmpty then
    match r1 with
    | '.' :: r2 =>
        let fs := r2.takeWhile isDigitC
        if fs.isEmpty then none
        else some (applyExp ((digitsToNat fs : ℚ) / 10 ^ fs.length) (r2.dropWhile isDigitC))
    | _ => none
  else
    match r1 with
    | '.' :: r2 =>
        let fs := r2.takeWhile isDigitC
        some (applyExp ((digitsToNat ds : ℚ) + (digitsToNat fs : ℚ) / 10 ^ fs.length)
          (r2.dropWhile isDigitC))
    | _ => some (applyExp (digitsToNat ds : ℚ) r1)

/-- JS `parseFloat`: skip leading whitespace, optional sign, then the
longest decimal-literal prefix; `none` models `NaN`.  (The `Infinity`
keyword has no counterpart in the exact-rational model.) -/
def jsParseFloat (s : List Char) : Option ℚ :=
  match s.dropWhile isWSChar with
  | '+' :: rest => parseFloatCore rest
  | '-' :: rest => (parseFloatCore rest).map Neg.neg
  | s1 => parseFloatCore s1

/-- Hexadecimal digit test for the `0x` auto-radix form of `parseInt`. -/
def isHexDigitC (c : Char) : Bool :=
  isDigitC c || (97 ≤ c.toNat && c.toNat ≤ 102) || (65 ≤ c.toNat && c.toNat ≤ 70)

/-- Value of a hexadecimal digit character. -/
def hexVal (c : Char) : ℕ :=
  if isDigitC c then charVal c
  else if 97 ≤ c.toNat then c.toNat - 87
  else c.toNat - 55

/-- Unsigned part of JS `parseInt` (radix unspecified): `0x`/`0X` prefix
switches to hexadecimal, otherwise the decimal digit prefix is taken. -/
def parseIntCore (s : List Char) : Option ℤ :=
  match s with
  | '0' :: 'x' :: rest =>
      let ds := rest.takeWhile isHexDigitC
      if ds.isEmpty then none else some (ds.foldl (fun a c => 16 * a + hexVal c) 0 : ℤ)
  | '0' :: 'X' :: rest =>
      let ds := rest.takeWhile isHexDigitC
      if ds.isEmpty then none else some (ds.foldl (fun a c => 16 * a + hexVal c) 0 : ℤ)
  | _ =>
      let ds := s.takeWhile isDigitC
      if ds.isEmpty then none else some (digitsToNat ds : ℤ)

/-- JS `parseInt` with no radix argument: whitespace, optional sign,
digit prefix; `none` models `NaN`. -/
def jsParseInt (s : List Char) : Option ℤ :=
  match s.dropWhile isWSChar with
  | '+' :: rest => parseIntCore rest
  | '-' :: rest => (parseIntCore rest).map Neg.neg
  | s1 => parseIntCore s1

/-- The Cell Sanitizer: the inline pattern
`parseFloat(String(raw || 0).replace(/[^\d.-]/g, ''))` with `NaN → 0`,
shared verbatim by the trend branch and `extractPieChartData` of both
variants (an empty or missing cell yields `0` on both paths). -/
def sanitizeNumber (x : String) : ℚ :=
  if x = "" then 0 else (jsParseFloat (stripChars x.toList)).getD 0

example : sanitizeNumber "Rp 15.000" = 15 := by with_unfolding_all decide
example : sanitizeNumber "10" = 10 := by with_unfolding_all decide
example : sanitizeNumber "" = 0 := by with_unfolding_all decide
example : sanitizeNumber "abc" = 0 := by with_unfolding_all decide
example : sanitizeNumber "-2.5" = -5/2 := by with_unfolding_all decide
example : jsParseFloat "1e3".toList = some 1000 := by with_unfolding_all decide
example : jsParseFloat "  -4.25".toList = some (-17/4) := by with_unfolding_all decide
example : jsParseFloat "12-34".toList = some 12 := by with_unfolding_all decide
example : jsParseFloat "1.2.3".toList = some (6/5) := by with_unfolding_all decide
example : jsParseInt "2023abc".toList = some 2023 := by with_unfolding_all decide
example : jsParseInt "0x7E7".toList = some 2023 := by with_unfolding_all decide
example : trimStr "  a b  " = "a b" := by decide
example : strIncludes "SubTotal amount" "total" = false := by decide
example : strIncludes (lowerStr "SubTotal amount") "total" = true := by decide

/-! ## Rendering numbers to strings (JS `toString` on numbers) -/

/-- Character of a decimal digit. -/
def digitChar (d : ℕ) : Char :=
  match d with
  | 0 => '0' | 1 => '1' | 2 => '2' | 3 => '3' | 4 => '4'
  | 5 => '5' | 6 => '6' | 7 => '7' | 8 => '8' | _ => '9'

/-- Decimal digit characters of a positive natural number, most
significant first; structural recursion on a fuel argument. -/
def natDigCore : ℕ → ℕ → List Char
  | 0, _ => []
  | fuel + 1, n => if n = 0 then [] else natDigCore fuel (n / 10) ++ [digitChar (n % 10)]

/-- Decimal digit characters of a natural number, most significant first. -/
def natDigList (n : ℕ) : List Char :=
  if n = 0 then ['0'] else natDigCore n n

/-- `String(n)` for a natural number. -/
def natToString (n : ℕ) : String := ⟨natDigList n⟩

/-- `String(z)` for an integer. -/
def intToString (z : ℤ) : String :=
  if z < 0 then ⟨'-' :: natDigList z.natAbs⟩ else natToString z.natAbs

/-- Exactly `k` decimal digit characters of `m < 10^k` (leading zeros kept). -/
def padDigits : ℕ → ℕ → List Char
  | 0, _ => []
  | k + 1, m => padDigits k (m / 10) ++ [digitChar (m % 10)]

/-- Fractional digit characters of `m / 10^k` with trailing zeros removed
(empty when `m = 0`). -/
def fracDigits : ℕ → ℕ → List Char
  | 0, _ => []
  | k + 1, m => if m % 10 = 0 then fracDigits k (m / 10) else padDigits (k + 1) m

/-- Plain decimal rendering of the non-negative value `n / 10^k`. -/
def renderDec (n k : ℕ) : List Char :=
  natDigList (n / 10 ^ k) ++
    match fracDigits k (n % 10 ^ k) with
    | [] => []
    | fs => '.' :: fs

/-- Smallest scale `j` with `10 ^ j ≡ 0 [MOD d]`, found by linear search
with `fuel` as the step bound (`j` itself when the fuel runs out). -/
def decExpCore : ℕ → ℕ → ℕ → ℕ
  | 0, _, j => j
  | fuel + 1, d, j => if 10 ^ j % d = 0 then j else decExpCore fuel d (j + 1)

/-- Smallest `j` with `d ∣ 10 ^ j`, for the denominators that divide a
power of ten (for those, `d` steps of fuel always suffice). -/
def decExp (d : ℕ) : ℕ := decExpCore d d 0

/-- Removes the trailing zero digits of `m` (fuel-bounded). -/
def stripZerosCore : ℕ → ℕ → ℕ
  | 0, m => m
  | fuel + 1, m => if m ≠ 0 ∧ m % 10 = 0 then stripZerosCore fuel (m / 10) else m

/-- `m` with its trailing decimal zeros removed. -/
def stripTrailingZeros (m : ℕ) : ℕ := stripZerosCore m m

/-- Exponent-notation rendering of `n / 10^k` (ECMAScript Number::toString
step 10/12 shape): significand digits with a decimal point after the first
when more follow, then `e`, the exponent sign and the decimal exponent. -/
def expNotation (n k : ℕ) : List Char :=
  let s := stripTrailingZeros n
  let e : ℤ := ((natDigList n).length : ℤ) - k - 1
  (match natDigList s with
   | [] => []
   | d :: rest => d :: (if rest.isEmpty then [] else '.' :: rest)) ++
  'e' :: (if e < 0 then '-' :: natDigList e.natAbs else '+' :: natDigList e.natAbs)

/-- Body of `Number.prototype.toString` for the non-negative value
`n / 10^k`: plain decimal notation when `10^-6 ≤ n/10^k < 10^21` or the
value is zero (the ECMAScript `-6 < n ≤ 21` decimal-position window),
exponent notation otherwise — `(1e-7).toString() = "1e-7"`,
`(1e21).toString() = "1e+21"`. -/
def numBody (n k : ℕ) : List Char :=
  if n < 10 ^ (k + 21) ∧ (n = 0 ∨ 10 ^ k ≤ n * 10 ^ 6) then renderDec n k
  else expNotation n k

/-- JS `Number.prototype.toString` in the exact-rational model, including
the decimal-exponent-notation rule. Meaningful for the decimal rationals
that `parseFloat` can produce, where `q.den` divides a power of ten. -/
def numToString (q : ℚ) : String :=
  ⟨(if q < 0 then ['-'] else []) ++
    numBody (q.num.natAbs * (10 ^ decExp q.den / q.den)) (decExp q.den)⟩

example : numToString 15 = "15" := by with_unfolding_all decide
example : numToString (-5/2) = "-2.5" := by with_unfolding_all decide
example : numToString 0 = "0" := by with_unfolding_all decide
example : numToString (1/20) = "0.05" := by with_unfolding_all decide
example : numToString (1/10^6) = "0.000001" := by with_unfolding_all decide
example : numToString (1/10^7) = "1e-7" := by with_unfolding_all decide
example : numToString (15/10^8) = "1.5e-7" := by with_unfolding_all decide
example : numToString (-(1/10^7)) = "-1e-7" := by with_unfolding_all decide
example : numToString ((10:ℚ)^21) = "1e+21" := by with_unfolding_all decide
example : natToString 2022 = "2022" := by decide
example : intToString (-7) = "-7" := by decide

/-! ## Chart data model -/

/-- The four chart types of `DataChartProps.type`. -/
inductive ChartType where
  | bar | line | pie | doughnut
deriving DecidableEq, Repr

/-- One dataset of the ChartJS payload; the model keeps the observable
`label` and `data` fields (colors, border width and fill are
presentation-only and constant in the source). -/
structure Dataset where
  label : String
  data : List ℚ
deriving DecidableEq, Repr

/-- The `ChartData` result of `processDataForChart`: category labels plus
datasets (the SeriesSet of the specification). -/
structure ChartData where
  labels : List String
  datasets : List Dataset
deriving DecidableEq, Repr

/-! ## Header resolution and row filtering (shared by both variants) -/

/-- One cell of the year-likeness test: after `String(cell || '').trim()`,
the cell is empty, or matches `/^\d{4}$/`, or matches `/^20\d{2}$/`. -/
def yearlikeCell (c : String) : Bool :=
  let s := (trimStr c).toList
  s.isEmpty || (s.length = 4 && s.all isDigitC) ||
    (match s with
     | '2' :: '0' :: a :: b :: [] => isDigitC a && isDigitC b
     | _ => false)

/-- `row.slice(1).every(...)` of the header heuristic: every non-first
cell looks like a year (vacuously true for rows of length ≤ 1). -/
def rowYearlike (row : List String) : Bool := (row.drop 1).all yearlikeCell

/-- The Header Resolver of `processDataForChart` (identical in both
variants): row 0 is the header unless row 1 alone looks year-like, in
which case row 1 becomes the header and row 0 is reinserted as the first
data row. -/
def resolveHeader (g : List (List String)) : List String × List (List String) :=
  match g with
  | r0 :: r1 :: rest =>
      if rowYearlike r0 && !rowYearlike r1 then (r0, r1 :: rest)
      else if rowYearlike r1 && !rowYearlike r0 then (r1, r0 :: rest)
      else (r0, r1 :: rest)
  | _ => (g.headD [], g.tail)

/-- The Row Filter predicate: keep a data row unless its first cell,
trimmed, contains "tahun" or "year" case-insensitively, is a bare
4-digit number, or is empty. -/
def dataRowKeep (row : List String) : Bool :=
  let firstCol := trimStr (row.getD 0 "")
  !(strIncludes (lowerStr firstCol) "tahun" ||
    strIncludes (lowerStr firstCol) "year" ||
    (firstCol.toList.length = 4 && firstCol.toList.all isDigitC) ||
    firstCol = "")

/-- Category labels of the filtered data rows:
`String(row[0] || `Row k`).trim() || `Item k``. -/
def categoryLabels (rows : List (List String)) : List String :=
  rows.enum.map (fun p =>
    let raw := p.2.getD 0 ""
    let lab := trimStr (if raw = "" then "Row " ++ natToString (p.1 + 1) else raw)
    if lab = "" then "Item " ++ natToString (p.1 + 1) else lab)

/-! ## Year pattern matching (`/\b(20\d{2})\b/`) -/

/-- Word characters for the `\b` boundary of the year regex. -/
def isWordChar (c : Char) : Bool :=
  isDigitC c || (97 ≤ c.toNat && c.toNat ≤ 122) || (65 ≤ c.toNat && c.toNat ≤ 90) || c = '_'

/-- Leftmost match of `/\b(20\d{2})\b/`: scan positions left to right,
remembering the previous character for the left word boundary. -/
def findYearAux : Option Char → List Char → Option ℕ
  | prev, x :: rest =>
      (if x = '2' then
        match rest with
        | '0' :: a :: b :: rest2 =>
            if isDigitC a && isDigitC b &&
               (match prev with | none => true | some p => !isWordChar p) &&
               (match rest2 with | [] => true | r :: _ => !isWordChar r)
            then some (2000 + 10 * charVal a + charVal b)
            else none
        | _ => none
      else none).orElse (fun _ => findYearAux (some x) rest)
  | _, [] => none

/-- `s.match(/\b(20\d{2})\b/)`: the year captured by the first match. -/
def findYear (s : String) : Option ℕ := findYearAux none s.toList

example : findYear "Data 2023" = some 2023 := by decide
example : findYear "Tahun 2022 x" = some 2022 := by decide
example : findYear "20233" = none := by decide
example : findYear "x2022" = none := by decide
example : findYear "1999" = none := by decide

/-! ## Pie-slice extraction (shared body of `extractPieChartData`) -/

/-- Pie-slice label of a data row: `String(row[0] || `Item k`).trim()`. -/
def pieLabel (rowIndex : ℕ) (row : List String) : String :=
  let raw := row.getD 0 ""
  trimStr (if raw = "" then "Item " ++ natToString (rowIndex + 1) else raw)

/-- The inclusion test of `extractPieChartData`: truthy label, label not
containing "total" case-insensitively, sanitized value strictly positive. -/
def pieInclude (label : String) (value : ℚ) : Bool :=
  !(label = "") && !(strIncludes (lowerStr label) "total") && decide (0 < value)

/-- `extractPieChartData` (identical in both variants): a forEach loop
pushing the surviving labels and sanitized values of column
`yearColumnIndex` (the `headers` argument is only used for logging). -/
def extractPieChartData (dataRows : List (List String)) (yearColumnIndex : ℕ) :
    List String × List ℚ :=
  dataRows.enum.foldl (fun (acc : List String × List ℚ) p =>
    let label := pieLabel p.1 p.2
    let value := sanitizeNumber (p.2.getD yearColumnIndex "")
    if pieInclude label value then (acc.1 ++ [label], acc.2 ++ [value]) else acc)
    ([], [])

/-! ## Variant 1: `src/client/components/DataChart.tsx` -/

namespace DataChart

/-- `findYearColumnIndex`: first column `i ≥ 1` whose trimmed header text
equals `String(targetYear)`, or parses to it with `parseInt`, or contains
it as a `\b(20\d{2})\b` pattern; `none` models the `-1` result. -/
def findYearColumnIndex (headers : List String) (targetYear : ℤ) : Option ℕ :=
  ((headers.enum.drop 1).find? (fun p =>
    let header := trimStr p.2
    header = intToString targetYear ||
    (jsParseInt header.toList) = some targetYear ||
    (match findYear header with
     | some n => (n : ℤ) = targetYear
     | none => false))).map (·.1)

/-- The closest-year fallback loop of the pie branch: over columns
`i ≥ 1` whose header contains a `\b(20\d{2})\b` year, keep the first one
minimising `|year - selectedYear|`; returns (closest year, column). -/
def closestYearScan (headers : List String) (targetYear : ℤ) : Option (ℕ × ℕ) :=
  ((headers.enum.drop 1).foldl (fun (acc : Option (ℤ × ℕ × ℕ)) p =>
    match findYear (trimStr p.2) with
    | none => acc
    | some n =>
        let diff := |(n : ℤ) - targetYear|
        match acc with
        | none => some (diff, n, p.1)
        | some a => if diff < a.1 then some (diff, n, p.1) else acc) none).map (·.2)

/-- Year-based resolution of the variant-1 pie branch: the header match
of `findYearColumnIndex`, then the closest-year loop; pairs the column
index with the string interpolated into `Data Tahun ${targetYear}`. -/
def pieFound (headers : List String) (selectedYear : Option ℤ) : Option (ℕ × String) :=
  match selectedYear with
  | none => none
  | some y =>
      match findYearColumnIndex headers y with
      | some i => some (i, intToString y)
      | none => (closestYearScan headers y).map (fun p => (p.2, intToString p.1))

/-- Target-column resolution of the variant-1 pie branch: header match,
then closest year, then fallback to the first data column. -/
def pieTarget (headers : List String) (selectedYear : Option ℤ) : Option (ℕ × String) :=
  match pieFound headers selectedYear with
  | some p => some p
  | none => if 1 < headers.length then some (1, headers.getD 1 "") else none

/-- Series label of a bar/line column: `String(rawHeader || `Column i`)
.trim()`, replaced by the first `\b(20\d{2})\b` year when one occurs. -/
def trendLabel (rawHeader : String) (i : ℕ) : String :=
  let year := trimStr (if rawHeader = "" then "Column " ++ natToString i else rawHeader)
  match findYear year with
  | some n => natToString n
  | none => year

/-- Sanitized values of column `i` over the filtered data rows. -/
def trendValues (rows : List (List String)) (i : ℕ) : List ℚ :=
  rows.map (fun row => sanitizeNumber (row.getD i ""))

/-- `processDataForChart` of `src/client/components/DataChart.tsx`. -/
def processDataForChart (type : ChartType) (data : List (List String))
    (selectedYear : Option ℤ) : ChartData :=
  if data.length < 2 then ⟨[], []⟩
  else
    let resolved := resolveHeader data
    let headers := resolved.1
    let filteredDataRows := resolved.2.filter dataRowKeep
    let labels := categoryLabels filteredDataRows
    if type = ChartType.pie || type = ChartType.doughnut then
      match pieTarget headers selectedYear with
      | none => ⟨labels, []⟩
      | some p =>
          let pieData := extractPieChartData filteredDataRows p.1
          if 0 < pieData.1.length && 0 < pieData.2.length then
            ⟨pieData.1, [⟨"Data Tahun " ++ p.2, pieData.2⟩]⟩
          else ⟨labels, []⟩
    else
      ⟨labels,
       ((List.range headers.length).drop 1).map (fun i =>
         ⟨trendLabel (headers.getD i "") i, trendValues filteredDataRows i⟩)⟩

end DataChart

/-! ## Variant 2: the `DataChart` in `src/unnamed/part_001` -/

namespace DataChartV2

/-- Series label of a bar/line column in variant 2: position `i-1` of
`selectedYears` when available, else a year extracted from the header,
else `Tahun i`. -/
def trendLabel (selectedYears : List ℤ) (rawHeader : String) (i : ℕ) : String :=
  if i ≤ selectedYears.length then intToString (selectedYears.getD (i - 1) 0)
  else
    let year := trimStr rawHeader
    match findYear year with
    | some n => natToString n
    | none =>
        if year.toList.length = 4 && year.toList.all isDigitC then year
        else "Tahun " ++ natToString i

/-- `processDataForChart` of the second `DataChart` variant: the pie
branch resolves the target column as `1 + selectedYears.indexOf
(selectedYear)` and returns an empty result when the year is absent. -/
def processDataForChart (type : ChartType) (data : List (List String))
    (selectedYear : Option ℤ) (selectedYears : List ℤ) : ChartData :=
  if data.length < 2 then ⟨[], []⟩
  else
    let resolved := resolveHeader data
    let headers := resolved.1
    let filteredDataRows := resolved.2.filter dataRowKeep
    let labels := categoryLabels filteredDataRows
    if type = ChartType.pie || type = ChartType.doughnut then
      match selectedYear with
      | none => ⟨[], []⟩
      | some y =>
          if selectedYears.length = 0 then ⟨[], []⟩
          else
            match selectedYears.findIdx? (fun a => a = y) with
            | none => ⟨[], []⟩
            | some idx =>
                let pieData := extractPieChartData filteredDataRows (1 + idx)
                if 0 < pieData.1.length && 0 < pieData.2.length then
                  ⟨pieData.1, [⟨"Data Tahun " ++ intToString y, pieData.2⟩]⟩
                else ⟨labels, []⟩
    else
      ⟨labels,
       ((List.range headers.length).drop 1).map (fun i =>
         ⟨trendLabel selectedYears (headers.getD i "") i,
          DataChart.trendValues filteredDataRows i⟩)⟩

end DataChartV2

/-! ## Axis bounds (`calculateYAxisBounds`, identical in both variants) -/

/-- `calculateYAxisBounds`: `none` models both the `{}` result of the
proportion modes and the `{ includeZero: true }` result for empty data;
otherwise the `(suggestedMin, suggestedMax)` pair. -/
def calculateYAxisBounds (type : ChartType) (cd : ChartData) : Option (ℚ × ℚ) :=
  if type = ChartType.pie || type = ChartType.doughnut then none
  else
    match cd.datasets.flatMap (·.data) with
    | [] => none
    | v :: vs =>
        let minValue := vs.foldl min v
        let maxValue := vs.foldl max v
        let range := |maxValue - minValue|
        let padding := if 0 < range then range * (15 / 100) else 1
        let suggestedMin :=
          if minValue < 0 then minValue - padding
          else if 0 < minValue then 0 else minValue
        let suggestedMax :=
          if 0 < maxValue then maxValue + padding
          else if maxValue < 0 then 0 else maxValue
        some (suggestedMin, suggestedMax)

/-! ## `getDataSummary` (`src/unnamed/part_000` and `src/unnamed/part_001`) -/

namespace ChartDashboard

/-- The summary returned by `getDataSummary`.  `totalYears` and
`dataPoints` are integers exactly as in JS (`headers.length - 1` can be
negative for an empty header row). -/
structure DataSummary where
  totalRegions : ℕ
  totalYears : ℤ
  dataPoints : ℤ
  averageValue : ℚ
  maxValue : ℚ
  minValue : ℚ
deriving DecidableEq, Repr

/-- `parseFloat(String(cell || 0))`: the raw parse of a summary cell,
with no sanitization; an empty or missing cell is coerced to `"0"`. -/
def cellParse (c : String) : Option ℚ :=
  jsParseFloat (if c = "" then "0" else c).toList

/-- The value cells visited by the summary loops, in code order
(outer loop over columns `1 ≤ i < headers.length`, inner over rows). -/
def valueCells (headers : List String) (rows : List (List String)) : List String :=
  ((List.range headers.length).drop 1).flatMap (fun i => rows.map (fun r => r.getD i ""))

/-- One step of the statistics loop: accumulate (sum, count, running max
from 0, running min from the `+Infinity` sentinel modelled as `none`). -/
def summarizeStep (acc : ℚ × ℕ × ℚ × Option ℚ) (c : String) : ℚ × ℕ × ℚ × Option ℚ :=
  match cellParse c with
  | none => acc
  | some v =>
      (acc.1 + v, acc.2.1 + 1, max acc.2.2.1 v,
       some (match acc.2.2.2 with | none => v | some m => min m v))

/-- `getDataSummary`: `none` for fewer than two rows, otherwise the
accumulated statistics (`minValue` falls back to `0` when the sentinel
survives, i.e. when no cell parsed). -/
def getDataSummary (data : List (List String)) : Option DataSummary :=
  if data.length < 2 then none
  else
    let headers := data.headD []
    let rows := data.tail
    let st := (valueCells headers rows).foldl summarizeStep (0, 0, 0, none)
    some
      { totalRegions := rows.length
        totalYears := (headers.length : ℤ) - 1
        dataPoints := ((headers.length : ℤ) - 1) * rows.length
        averageValue := if 0 < st.2.1 then st.1 / (st.2.1 : ℚ) else 0
        maxValue := st.2.2.1
        minValue := st.2.2.2.getD 0 }

end ChartDashboard

/-! ## Helper lemmas -/

theorem foldl_min_mem (vs : List ℚ) (v : ℚ) : vs.foldl min v ∈ v :: vs := by
  induction vs generalizing v with
  | nil => simp
  | cons w ws ih =>
      rw [List.foldl_cons]
      rcases List.mem_cons.mp (ih (min v w)) with h | h
      · rcases min_choice v w with h2 | h2
        · exact List.mem_cons.mpr (Or.inl (h.trans h2))
        · exact List.mem_cons.mpr (Or.inr (List.mem_cons.mpr (Or.inl (h.trans h2))))
      · exact List.mem_cons.mpr (Or.inr (List.mem_cons.mpr (Or.inr h)))

theorem foldl_max_mem (vs : List ℚ) (v : ℚ) : vs.foldl max v ∈ v :: vs := by
  induction vs generalizing v with
  | nil => simp
  | cons w ws ih =>
      rw [List.foldl_cons]
      rcases List.mem_cons.mp (ih (max v w)) with h | h
      · rcases max_choice v w with h2 | h2
        · exact List.mem_cons.mpr (Or.inl (h.trans h2))
        · exact List.mem_cons.mpr (Or.inr (List.mem_cons.mpr (Or.inl (h.trans h2))))
      · exact List.mem_cons.mpr (Or.inr (List.mem_cons.mpr (Or.inr h)))

/-! ## Claim theorems -/

/-- Claim C6 (confirmed): the Header Resolver detects the single-swap
case — when the non-first cells of row 1 all look year-like and those of
row 0 do not, row 1 becomes the header and row 0 is reinserted as the
first data row before rows 2..N; in the ambiguous cases (both rows
year-like or neither) row 0 stays the header and rows 1..N are the data. -/
theorem resolveHeader_single_swap (g : List (List String)) (r0 r1 : List String)
    (rest : List (List String)) (hg : g = r0 :: r1 :: rest) :
    (rowYearlike r1 = true ∧ rowYearlike r0 = false →
      resolveHeader g = (r1, r0 :: rest)) ∧
    (rowYearlike r0 = rowYearlike r1 →
      resolveHeader g = (r0, r1 :: rest)) := by
  subst hg
  constructor
  · rintro ⟨h1, h0⟩
    simp [resolveHeader, h0, h1]
  · intro h
    cases hv : rowYearlike r0 <;> simp [resolveHeader, hv, h ▸ hv]

/-- Witness for C6: Scenario C, a grid with header and data swapped. -/
theorem resolveHeader_single_swap_witness :
    resolveHeader [["A", "10", "20"], ["Region", "2022", "2023"]] =
      (["Region", "2022", "2023"], [["A", "10", "20"]]) :=
  (resolveHeader_single_swap _ _ _ _ rfl).1 ⟨by decide, by decide⟩

/-- Claim C9 (confirmed): in comparison/trend (bar/line) mode over a grid
with at least two rows whose resolved header row has `C` columns, the
output has exactly `C - 1` series, and every series has exactly one
sanitized value per surviving filtered data row, so its length equals the
category-label count. -/
theorem trend_row_count_conservation (type : ChartType) (g : List (List String))
    (y : Option ℤ) (h1 : type = ChartType.bar ∨ type = ChartType.line)
    (h2 : 2 ≤ g.length) :
    (DataChart.processDataForChart type g y).datasets.length =
      (resolveHeader g).1.length - 1 ∧
    ∀ d ∈ (DataChart.processDataForChart type g y).datasets,
      d.data.length = (DataChart.processDataForChart type g y).labels.length := by
  have hlen : ¬ g.length < 2 := by omega
  rcases h1 with h | h <;> subst h <;>
    simp [DataChart.processDataForChart, hlen, categoryLabels,
      DataChart.trendValues, List.mem_map]
  · rintro d i - - rfl
    simp
  · rintro d i - - rfl
    simp

/-- Witness for C9: a 3-column grid yields 2 series of length 1. -/
theorem trend_row_count_conservation_witness :
    (DataChart.processDataForChart ChartType.bar
        [["Region", "2022", "2023"], ["A", "10", "20"]] none).datasets.length =
      (resolveHeader [["Region", "2022", "2023"], ["A", "10", "20"]]).1.length - 1 ∧
    ∀ d ∈ (DataChart.processDataForChart ChartType.bar
        [["Region", "2022", "2023"], ["A", "10", "20"]] none).datasets,
      d.data.length = (DataChart.processDataForChart ChartType.bar
        [["Region", "2022", "2023"], ["A", "10", "20"]] none).labels.length :=
  trend_row_count_conservation ChartType.bar _ none (Or.inl rfl) (by decide)

/-- Claim C8 (confirmed): for bar/line mode with at least one value, the
computed bounds satisfy `suggestedMin ≤ 0 ≤ suggestedMax`; when every
value is positive the lower bound is forced to `0`, and when every value
is negative the upper bound is forced to `0`. -/
theorem yAxisBounds_zero_inclusion (type : ChartType) (cd : ChartData)
    (h1 : type = ChartType.bar ∨ type = ChartType.line)
    (h2 : cd.datasets.flatMap Dataset.data ≠ []) :
    ∃ lo hi, calculateYAxisBounds type cd = some (lo, hi) ∧ lo ≤ 0 ∧ 0 ≤ hi ∧
      ((∀ v ∈ cd.datasets.flatMap Dataset.data, 0 < v) → lo = 0) ∧
      ((∀ v ∈ cd.datasets.flatMap Dataset.data, v < 0) → hi = 0) := by
  obtain ⟨v, vs, hl⟩ := List.exists_cons_of_ne_nil h2
  have hty : ¬ (type = ChartType.pie ∨ type = ChartType.doughnut) := by
    rcases h1 with h | h <;> subst h <;> rintro (h | h) <;> exact ChartType.noConfusion h
  have hcalc : calculateYAxisBounds type cd =
      some
        (if vs.foldl min v < 0 then
            vs.foldl min v -
              (if 0 < |vs.foldl max v - vs.foldl min v| then
                |vs.foldl max v - vs.foldl min v| * (15 / 100) else 1)
          else if 0 < vs.foldl min v then 0 else vs.foldl min v,
         if 0 < vs.foldl max v then
            vs.foldl max v +
              (if 0 < |vs.foldl max v - vs.foldl min v| then
                |vs.foldl max v - vs.foldl min v| * (15 / 100) else 1)
          else if vs.foldl max v < 0 then 0 else vs.foldl max v) := by
    rw [calculateYAxisBounds, if_neg (by simpa using hty)]
    rw [show cd.datasets.flatMap (fun d => d.data) = v :: vs from hl]
  have hpad : 0 < (if 0 < |vs.foldl max v - vs.foldl min v| then
      |vs.foldl max v - vs.foldl min v| * (15 / 100) else 1) := by
    split_ifs with h
    · positivity
    · norm_num
  refine ⟨_, _, hcalc, ?_, ?_, ?_, ?_⟩
  · split_ifs with ha hb <;> linarith
  · split_ifs with ha hb <;> linarith
  · intro hall
    have : 0 < vs.foldl min v := hall _ (hl ▸ foldl_min_mem vs v)
    rw [if_neg (by linarith), if_pos this]
  · intro hall
    have : vs.foldl max v < 0 := hall _ (hl ▸ foldl_max_mem vs v)
    rw [if_neg (by linarith), if_pos this]

/-- Witness for C8: a single positive value forces the lower bound to 0. -/
theorem yAxisBounds_zero_inclusion_witness :
    ∃ lo hi,
      calculateYAxisBounds ChartType.bar ⟨["A"], [⟨"2022", [3]⟩]⟩ = some (lo, hi) ∧
      lo ≤ 0 ∧ 0 ≤ hi ∧
      ((∀ v ∈ (ChartData.mk ["A"] [⟨"2022", [3]⟩]).datasets.flatMap Dataset.data, 0 < v) →
        lo = 0) ∧
      ((∀ v ∈ (ChartData.mk ["A"] [⟨"2022", [3]⟩]).datasets.flatMap Dataset.data, v < 0) →
        hi = 0) :=
  yAxisBounds_zero_inclusion ChartType.bar ⟨["A"], [⟨"2022", [3]⟩]⟩ (Or.inl rfl)
    (by with_unfolding_all decide)

/-- Counterexample to claim C1: in the `DataChart.tsx` variant no yearAxis
exists and no header column matches target year 1999, yet the pie result
is not empty — the closest header year 2022 is guessed and a full series
is returned. -/
theorem pie_fallback_guesses_column :
    DataChart.processDataForChart ChartType.pie
        [["Region", "2022", "2023"], ["A", "10", "20"]] (some 1999) =
      ⟨["A"], [⟨"Data Tahun 2022", [10]⟩]⟩ ∧
    (⟨["A"], [⟨"Data Tahun 2022", [10]⟩]⟩ : ChartData) ≠ ⟨[], []⟩ := by
  constructor
  · with_unfolding_all decide
  · with_unfolding_all decide

/-- Claim C1 (amended): in the variant that takes a yearAxis
(`selectedYears`), whenever resolution fails — no target year, an empty
yearAxis, or a target year absent from the yearAxis — the result is the
explicit empty SeriesSet with zero series and zero labels. -/
theorem pie_empty_on_unresolved_year (type : ChartType) (g : List (List String))
    (y : Option ℤ) (ys : List ℤ)
    (hm : type = ChartType.pie ∨ type = ChartType.doughnut)
    (h : ∀ z : ℤ, y = some z → z ∉ ys) :
    DataChartV2.processDataForChart type g y ys = ⟨[], []⟩ := by
  have hfind : ∀ z : ℤ, y = some z → ys.findIdx? (fun a => decide (a = z)) = none := by
    intro z hz
    rw [List.findIdx?_eq_none_iff]
    intro x hx
    simp only [decide_eq_false_iff_not]
    exact fun hxz => h z hz (hxz ▸ hx)
  rcases hm with h' | h' <;> subst h' <;>
    cases y with
    | none => simp [DataChartV2.processDataForChart]
    | some z => simp [DataChartV2.processDataForChart, hfind z rfl]

/-- Witness for C1 (Scenario D): targetYear 1999 with yearAxis
[2022, 2023] yields no series and no labels. -/
theorem pie_empty_on_unresolved_year_witness :
    DataChartV2.processDataForChart ChartType.pie
        [["Region", "2022", "2023"], ["A", "10", "20"], ["B", "5", "15"]]
        (some 1999) [2022, 2023] = ⟨[], []⟩ :=
  pie_empty_on_unresolved_year ChartType.pie _ _ _ (Or.inl rfl)
    (fun z hz => by cases hz; decide)

/-- Counterexample to claim C3: on the same input tuple the two UI
variants give different pie results (closest-year guess versus
empty-on-failure), so the duplicated logic is not observably equivalent. -/
theorem variants_differ_on_pie :
    DataChart.processDataForChart ChartType.pie
        [["Region", "2022", "2023"], ["A", "10", "20"]] (some 1999) ≠
      DataChartV2.processDataForChart ChartType.pie
        [["Region", "2022", "2023"], ["A", "10", "20"]] (some 1999) [2022, 2023] := by
  with_unfolding_all decide

/-- Claim C3 (amended): the two variants agree in the non-proportion
(bar/line) modes on category labels and on the series values, for every
grid, target year and yearAxis; the proportion branches (and the series
label fallbacks) are where they differ. -/
theorem variants_agree_on_trend (type : ChartType) (g : List (List String))
    (y : Option ℤ) (ys : List ℤ)
    (h : type = ChartType.bar ∨ type = ChartType.line) :
    (DataChart.processDataForChart type g y).labels =
      (DataChartV2.processDataForChart type g y ys).labels ∧
    (DataChart.processDataForChart type g y).datasets.map Dataset.data =
      (DataChartV2.processDataForChart type g y ys).datasets.map Dataset.data := by
  by_cases hlen : g.length < 2 <;>
    rcases h with h' | h' <;> subst h' <;>
      simp [DataChart.processDataForChart, DataChartV2.processDataForChart, hlen,
        List.map_map, Function.comp]

/-- Witness for C3: agreement of the two variants at a concrete bar-mode
input. -/
theorem variants_agree_on_trend_witness :
    (DataChart.processDataForChart ChartType.bar
        [["Region", "2022", "2023"], ["A", "10", "20"]] none).labels =
      (DataChartV2.processDataForChart ChartType.bar
        [["Region", "2022", "2023"], ["A", "10", "20"]] none []).labels ∧
    (DataChart.processDataForChart ChartType.bar
        [["Region", "2022", "2023"], ["A", "10", "20"]] none).datasets.map Dataset.data =
      (DataChartV2.processDataForChart ChartType.bar
        [["Region", "2022", "2023"], ["A", "10", "20"]] none []).datasets.map Dataset.data :=
  variants_agree_on_trend ChartType.bar _ none [] (Or.inl rfl)

/-- Counterexample to claim C2: in Scenario A the series labelled "2023"
has values [20, 15], not [20, 15000] — the sanitizer keeps the decimal
point, so "Rp 15.000" strips to "15.000" and parses as 15. -/
theorem scenarioA_value_is_15_not_15000 :
    (DataChartV2.processDataForChart ChartType.line
        [["Region", "2022", "2023"], ["A", "10", "20"], ["B", "5", "Rp 15.000"]]
        none [2022, 2023]).datasets =
      [⟨"2022", [10, 5]⟩, ⟨"2023", [20, 15]⟩] ∧
    ([⟨"2022", [10, 5]⟩, ⟨"2023", [20, 15]⟩] : List Dataset) ≠
      [⟨"2022", [10, 5]⟩, ⟨"2023", [20, 15000]⟩] := by
  constructor
  · with_unfolding_all decide
  · with_unfolding_all decide

/-- Claim C2 (amended): Scenario A yields two series "2022" → [10, 5]
and "2023" → [20, 15] with category labels ["A", "B"], in both variants;
"Rp 15.000" sanitizes to 15 because only characters outside `[\d.-]` are
stripped and the kept "." acts as the decimal point. -/
theorem scenarioA_trend_output :
    DataChartV2.processDataForChart ChartType.line
        [["Region", "2022", "2023"], ["A", "10", "20"], ["B", "5", "Rp 15.000"]]
        none [2022, 2023] =
      ⟨["A", "B"], [⟨"2022", [10, 5]⟩, ⟨"2023", [20, 15]⟩]⟩ ∧
    DataChart.processDataForChart ChartType.line
        [["Region", "2022", "2023"], ["A", "10", "20"], ["B", "5", "Rp 15.000"]]
        none =
      ⟨["A", "B"], [⟨"2022", [10, 5]⟩, ⟨"2023", [20, 15]⟩]⟩ ∧
    sanitizeNumber "Rp 15.000" = 15 := by
  refine ⟨?_, ?_, ?_⟩ <;> with_unfolding_all decide

/-! ## Proportion filtering (C7) -/

/-- Modelled from the spec's wording for the proportion law: the included
rows of a resolved column are the data rows that survive the non-empty /
non-"total" / positive-value filter, each paired with its label and
sanitized value, in row order. -/
def pieEntries (dataRows : List (List String)) (idx : ℕ) : List (String × ℚ) :=
  dataRows.enum.filterMap (fun p =>
    let label := pieLabel p.1 p.2
    let value := sanitizeNumber (p.2.getD idx "")
    if pieInclude label value then some (label, value) else none)

theorem extractPie_foldl_general (l : List (ℕ × List String)) (idx : ℕ)
    (acc : List String × List ℚ) :
    l.foldl (fun (acc : List String × List ℚ) p =>
        let label := pieLabel p.1 p.2
        let value := sanitizeNumber (p.2.getD idx "")
        if pieInclude label value then (acc.1 ++ [label], acc.2 ++ [value]) else acc)
      acc =
      (acc.1 ++ (l.filterMap (fun p =>
          let label := pieLabel p.1 p.2
          let value := sanitizeNumber (p.2.getD idx "")
          if pieInclude label value then some (label, value) else none)).map Prod.fst,
       acc.2 ++ (l.filterMap (fun p =>
          let label := pieLabel p.1 p.2
          let value := sanitizeNumber (p.2.getD idx "")
          if pieInclude label value then some (label, value) else none)).map Prod.snd) := by
  induction l generalizing acc with
  | nil => simp
  | cons p ps ih =>
      simp only [List.foldl_cons, List.filterMap_cons]
      split
      · rw [ih]
        simp
      · rw [ih]

/-- `extractPieChartData` lists exactly the included labels and values,
in filtered row order. -/
theorem extractPie_eq_pieEntries (rows : List (List String)) (idx : ℕ) :
    extractPieChartData rows idx =
      ((pieEntries rows idx).map Prod.fst, (pieEntries rows idx).map Prod.snd) := by
  rw [extractPieChartData, pieEntries, extractPie_foldl_general]
  simp

theorem pieEntries_prop (rows : List (List String)) (idx : ℕ) (l : String) (v : ℚ)
    (h : (l, v) ∈ pieEntries rows idx) :
    0 < v ∧ l ≠ "" ∧ strIncludes (lowerStr l) "total" = false := by
  rw [pieEntries] at h
  obtain ⟨p, -, hp⟩ := List.mem_filterMap.mp h
  by_cases hinc : pieInclude (pieLabel p.1 p.2) (sanitizeNumber (p.2.getD idx "")) = true
  · rw [if_pos hinc] at hp
    cases hp
    have := hinc
    rw [pieInclude] at this
    simp only [Bool.and_eq_true, Bool.not_eq_eq_eq_not, Bool.not_true,
      decide_eq_true_eq] at this
    refine ⟨this.2, ?_, ?_⟩
    · intro hl
      rcases this with ⟨⟨h1, -⟩, -⟩
      rw [hl] at h1
      simp at h1
    · rcases this with ⟨⟨-, h2⟩, -⟩
      simpa using h2
  · rw [if_neg hinc] at hp
    cases hp

theorem mem_enum_drop_one_pos {α : Type} (l : List α) (p : ℕ × α)
    (h : p ∈ l.enum.drop 1) : 0 < p.1 := by
  cases l with
  | nil => simp at h
  | cons a as =>
      have he : (a :: as).enum.drop 1 = as.enumFrom 1 := rfl
      rw [he] at h
      cases p with
      | mk i x =>
          have := (List.mk_mem_enumFrom_iff_le_and_getElem?_sub.mp h).1
          omega

theorem findYearColumnIndex_pos (headers : List String) (t : ℤ) (i : ℕ)
    (h : DataChart.findYearColumnIndex headers t = some i) : 0 < i := by
  rw [DataChart.findYearColumnIndex] at h
  obtain ⟨p, hp, rfl⟩ := Option.map_eq_some.mp h
  exact mem_enum_drop_one_pos _ _ (List.mem_of_find?_eq_some hp)

theorem closestYearScan_pos_aux (t : ℤ) (l : List (ℕ × String))
    (acc : Option (ℤ × ℕ × ℕ)) (hl : ∀ p ∈ l, 0 < p.1)
    (hacc : ∀ a, acc = some a → 0 < a.2.2) :
    ∀ a, l.foldl (fun (acc : Option (ℤ × ℕ × ℕ)) p =>
        match findYear (trimStr p.2) with
        | none => acc
        | some n =>
            let diff := |(n : ℤ) - t|
            match acc with
            | none => some (diff, n, p.1)
            | some a => if diff < a.1 then some (diff, n, p.1) else acc) acc = some a →
      0 < a.2.2 := by
  induction l generalizing acc with
  | nil => simpa using hacc
  | cons q l ih =>
      intro a ha
      rw [List.foldl_cons] at ha
      refine ih _ (fun p hp => hl p (List.mem_cons_of_mem q hp)) ?_ a ha
      intro b hb
      rcases hy : findYear (trimStr q.2) with - | n
      · rw [hy] at hb
        exact hacc b hb
      · rw [hy] at hb
        rcases hv : acc with - | a0
        · rw [hv] at hb
          simp only [Option.some.injEq] at hb
          rw [← hb]
          exact hl q (List.mem_cons_self q l)
        · rw [hv] at hb
          simp only at hb
          split at hb
          · simp only [Option.some.injEq] at hb
            rw [← hb]
            exact hl q (List.mem_cons_self q l)
          · exact hacc b (hv ▸ hb)

theorem closestYearScan_pos (headers : List String) (t : ℤ) (p : ℕ × ℕ)
    (h : DataChart.closestYearScan headers t = some p) : 0 < p.2 := by
  rw [DataChart.closestYearScan] at h
  obtain ⟨a, ha, rfl⟩ := Option.map_eq_some.mp h
  exact closestYearScan_pos_aux t _ none
    (fun q hq => mem_enum_drop_one_pos _ _ hq) (by simp) a ha

theorem pieFound_pos (headers : List String) (y : Option ℤ) (q : ℕ × String)
    (h : DataChart.pieFound headers y = some q) : 0 < q.1 := by
  rw [DataChart.pieFound.eq_def] at h
  rcases y with - | t
  · exact Option.noConfusion h
  · simp only at h
    rcases hf : DataChart.findYearColumnIndex headers t with - | i <;> rw [hf] at h
    · obtain ⟨a, ha, haq⟩ := Option.map_eq_some.mp h
      have := closestYearScan_pos headers t a ha
      rw [← haq]
      simpa using this
    · simp only [Option.some.injEq] at h
      rw [← h]
      exact findYearColumnIndex_pos headers t i hf

theorem pieTarget_pos (headers : List String) (y : Option ℤ) (p : ℕ × String)
    (h : DataChart.pieTarget headers y = some p) : 0 < p.1 := by
  rw [DataChart.pieTarget.eq_def] at h
  rcases hp : DataChart.pieFound headers y with - | q <;> rw [hp] at h
  · simp only at h
    split at h
    · simp only [Option.some.injEq] at h
      rw [← h]
      norm_num
    · exact Option.noConfusion h
  · simp only [Option.some.injEq] at h
    exact h ▸ pieFound_pos headers y q hp

/-- The proportion filtering law, as amended: all series values strictly
positive; and while any series exists, the category labels are exactly
the included rows' labels of some resolved column `idx ≥ 1`, aligned
with the single series' values, and none of them is empty or contains
"total" case-insensitively. -/
def ProportionLawHolds (out : ChartData) (rows : List (List String)) : Prop :=
  (∀ d ∈ out.datasets, ∀ v ∈ d.data, 0 < v) ∧
  (out.datasets ≠ [] → ∃ idx, 0 < idx ∧
      out.labels = (pieEntries rows idx).map Prod.fst ∧
      out.datasets.map Dataset.data = [(pieEntries rows idx).map Prod.snd]) ∧
  (out.datasets ≠ [] → ∀ l ∈ out.labels,
      l ≠ "" ∧ strIncludes (lowerStr l) "total" = false)

theorem proportionLaw_empty (ls : List String) (rows : List (List String)) :
    ProportionLawHolds ⟨ls, []⟩ rows := by
  refine ⟨by simp, by simp, by simp⟩

theorem proportionLaw_filled (rows : List (List String)) (idx : ℕ) (lab : String)
    (hidx : 0 < idx) :
    ProportionLawHolds
      ⟨(pieEntries rows idx).map Prod.fst,
       [⟨lab, (pieEntries rows idx).map Prod.snd⟩]⟩ rows := by
  refine ⟨?_, ?_, ?_⟩
  · intro d hd v hv
    simp only [List.mem_singleton] at hd
    subst hd
    obtain ⟨⟨l, w⟩, he, hw⟩ := List.mem_map.mp hv
    cases hw
    exact (pieEntries_prop rows idx l w he).1
  · rintro -
    exact ⟨idx, hidx, rfl, by simp⟩
  · rintro - l hl
    obtain ⟨⟨l2, w⟩, he, hw⟩ := List.mem_map.mp hl
    cases hw
    have := pieEntries_prop rows idx l2 w he
    exact ⟨this.2.1, this.2.2⟩

/-- Claim C7 (amended): in proportion (pie/doughnut) mode, both variants
only ever emit entries with strictly positive sanitized values; whenever
a series is emitted, the category labels are exactly the included rows'
labels of the resolved column, in filtered order, aligned with the
values, and none contains "total"; when the resolved column has no
surviving row, the series list is empty but the labels keep the filtered
data rows' labels. -/
theorem proportion_filtering_law (type : ChartType) (g : List (List String))
    (y : Option ℤ) (ys : List ℤ)
    (hm : type = ChartType.pie ∨ type = ChartType.doughnut) :
    ProportionLawHolds (DataChart.processDataForChart type g y)
      ((resolveHeader g).2.filter dataRowKeep) ∧
    ProportionLawHolds (DataChartV2.processDataForChart type g y ys)
      ((resolveHeader g).2.filter dataRowKeep) := by
  have hpie : (type = ChartType.pie || type = ChartType.doughnut) = true := by
    rcases hm with h | h <;> simp [h]
  constructor
  · by_cases hlen : g.length < 2
    · rw [DataChart.processDataForChart, if_pos hlen]
      exact proportionLaw_empty [] _
    · rw [DataChart.processDataForChart, if_neg hlen, if_pos hpie]
      rcases hp : DataChart.pieTarget (resolveHeader g).1 y with - | p
    -- no target column: category labels with no series
      · exact proportionLaw_empty _ _
      · simp only
        rw [extractPie_eq_pieEntries]
        split
        · exact proportionLaw_filled _ _ _ (pieTarget_pos _ _ _ hp)
        · exact proportionLaw_empty _ _
  · by_cases hlen : g.length < 2
    · rw [DataChartV2.processDataForChart, if_pos hlen]
      exact proportionLaw_empty [] _
    · rw [DataChartV2.processDataForChart, if_neg hlen, if_pos hpie]
      rcases y with - | t
      · exact proportionLaw_empty [] _
      · simp only
        split
        · exact proportionLaw_empty [] _
        · rcases hidx : (ys.findIdx? fun a => decide (a = t)) with - | j
          · exact proportionLaw_empty [] _
          · simp only
            rw [extractPie_eq_pieEntries]
            split
            · exact proportionLaw_filled _ _ _ (by omega)
            · exact proportionLaw_empty _ _

/-- Witness for C7: Scenario E — the "Total" row and the zero row are
excluded from the emitted pie series. -/
theorem proportion_filtering_law_witness :
    ProportionLawHolds
      (DataChart.processDataForChart ChartType.pie
        [["Region", "2022"], ["A", "7"], ["Total", "15"]] (some 2022))
      ((resolveHeader [["Region", "2022"], ["A", "7"], ["Total", "15"]]).2.filter
        dataRowKeep) ∧
    ProportionLawHolds
      (DataChartV2.processDataForChart ChartType.pie
        [["Region", "2022"], ["A", "7"], ["Total", "15"]] (some 2022) [2022])
      ((resolveHeader [["Region", "2022"], ["A", "7"], ["Total", "15"]]).2.filter
        dataRowKeep) :=
  proportion_filtering_law ChartType.pie _ (some 2022) [2022] (Or.inl rfl)

/-- Counterexample to claim C7: when every data row is excluded (zero
value or a "total" label), the series list is empty but `categoryLabels`
is not the included rows' label list (which is empty) — it keeps the
filtered data rows' labels, including one containing "Total". -/
theorem proportion_labels_survive_empty_series :
    DataChartV2.processDataForChart ChartType.pie
        [["Region", "2022"], ["A", "0"], ["Total", "5"]] (some 2022) [2022] =
      ⟨["A", "Total"], []⟩ ∧
    (["A", "Total"] : List String) ≠ [] := by
  constructor
  · with_unfolding_all decide
  · with_unfolding_all decide

/-! ## Summary statistics as functions of the parsed cells (C4, C10) -/

namespace ChartDashboard

/-- The value cells that survive the raw `parseFloat`, in visit order. -/
def parsedValues (data : List (List String)) : List ℚ :=
  (valueCells (data.headD []) data.tail).filterMap cellParse

/-- The numeric part of `summarizeStep`, applied only to cells that
parse. -/
def numStep (acc : ℚ × ℕ × ℚ × Option ℚ) (v : ℚ) : ℚ × ℕ × ℚ × Option ℚ :=
  (acc.1 + v, acc.2.1 + 1, max acc.2.2.1 v,
   some (match acc.2.2.2 with | none => v | some m => min m v))

theorem foldl_summarize_eq (cs : List String) (acc : ℚ × ℕ × ℚ × Option ℚ) :
    cs.foldl summarizeStep acc = (cs.filterMap cellParse).foldl numStep acc := by
  induction cs generalizing acc with
  | nil => rfl
  | cons c cs ih =>
      rw [List.foldl_cons, List.filterMap_cons]
      rcases hc : cellParse c with - | v
      · rw [show summarizeStep acc c = acc by rw [summarizeStep, hc]]
        exact ih acc
      · rw [show summarizeStep acc c = numStep acc v by rw [summarizeStep, hc]; rfl]
        rw [List.foldl_cons]
        exact ih _

theorem numStep_fold_sum (vs : List ℚ) (acc : ℚ × ℕ × ℚ × Option ℚ) :
    (vs.foldl numStep acc).1 = acc.1 + vs.sum := by
  induction vs generalizing acc with
  | nil => simp
  | cons v vs ih =>
      rw [List.foldl_cons, ih]
      simp [numStep]
      ring

theorem numStep_fold_count (vs : List ℚ) (acc : ℚ × ℕ × ℚ × Option ℚ) :
    (vs.foldl numStep acc).2.1 = acc.2.1 + vs.length := by
  induction vs generalizing acc with
  | nil => simp
  | cons v vs ih =>
      rw [List.foldl_cons, ih]
      simp [numStep]
      omega

theorem numStep_fold_max (vs : List ℚ) (acc : ℚ × ℕ × ℚ × Option ℚ) :
    (vs.foldl numStep acc).2.2.1 = vs.foldl max acc.2.2.1 := by
  induction vs generalizing acc with
  | nil => rfl
  | cons v vs ih =>
      rw [List.foldl_cons, ih, List.foldl_cons]
      rfl

theorem numStep_fold_min_some (vs : List ℚ) (acc : ℚ × ℕ × ℚ × Option ℚ) (m : ℚ)
    (h : acc.2.2.2 = some m) : (vs.foldl numStep acc).2.2.2 = some (vs.foldl min m) := by
  induction vs generalizing acc m with
  | nil => simpa using h
  | cons v vs ih =>
      rw [List.foldl_cons, List.foldl_cons]
      exact ih _ _ (by simp [numStep, h])

theorem numStep_fold_min_none (vs : List ℚ) (acc : ℚ × ℕ × ℚ × Option ℚ)
    (h : acc.2.2.2 = none) :
    (vs.foldl numStep acc).2.2.2 =
      match vs with
      | [] => none
      | v :: rest => some (rest.foldl min v) := by
  rcases vs with - | ⟨v, rest⟩
  · simpa using h
  · rw [List.foldl_cons]
    exact numStep_fold_min_some rest _ v (by simp [numStep, h])

end ChartDashboard

theorem le_foldl_max (a : ℚ) (vs : List ℚ) : a ≤ vs.foldl max a := by
  induction vs generalizing a with
  | nil => simp
  | cons v vs ih => exact le_trans (le_max_left a v) (ih (max a v))

theorem foldl_max_zero_of_neg (vs : List ℚ) (h : ∀ v ∈ vs, v < 0) :
    vs.foldl max 0 = 0 := by
  induction vs with
  | nil => rfl
  | cons v vs ih =>
      rw [List.foldl_cons, max_eq_left (le_of_lt (h v (List.mem_cons_self v vs)))]
      exact ih (fun w hw => h w (List.mem_cons_of_mem v hw))

/-- Unpacks the record produced by `getDataSummary` in terms of the
parsed value list. -/
theorem getDataSummary_fields (data : List (List String))
    (s : ChartDashboard.DataSummary) (h : ChartDashboard.getDataSummary data = some s) :
    s.maxValue = (ChartDashboard.parsedValues data).foldl max 0 ∧
    s.averageValue =
      (if ChartDashboard.parsedValues data = [] then 0
       else (ChartDashboard.parsedValues data).sum /
         ((ChartDashboard.parsedValues data).length : ℚ)) ∧
    s.minValue =
      (match ChartDashboard.parsedValues data with
       | [] => (0 : ℚ)
       | v :: rest => rest.foldl min v) := by
  rw [ChartDashboard.getDataSummary] at h
  split at h
  · exact Option.noConfusion h
  · simp only [Option.some.injEq] at h
    subst h
    rw [ChartDashboard.foldl_summarize_eq]
    have hfold : List.filterMap ChartDashboard.cellParse
        (ChartDashboard.valueCells (data.headD []) data.tail) =
        ChartDashboard.parsedValues data := by
      rw [ChartDashboard.parsedValues]
    simp only [hfold]
    refine ⟨?_, ?_, ?_⟩
    · simpa using ChartDashboard.numStep_fold_max (ChartDashboard.parsedValues data) (0, 0, 0, none)
    · rw [show ((ChartDashboard.parsedValues data).foldl ChartDashboard.numStep
          (0, 0, 0, none)).2.1 = (ChartDashboard.parsedValues data).length by
            simpa using ChartDashboard.numStep_fold_count (ChartDashboard.parsedValues data)
              (0, 0, 0, none)]
      rw [show ((ChartDashboard.parsedValues data).foldl ChartDashboard.numStep
          (0, 0, 0, none)).1 = (ChartDashboard.parsedValues data).sum by
            simpa using ChartDashboard.numStep_fold_sum (ChartDashboard.parsedValues data)
              (0, 0, 0, none)]
      rcases hv : ChartDashboard.parsedValues data with - | ⟨v, rest⟩
      · simp
      · simp
    · rw [ChartDashboard.numStep_fold_min_none (ChartDashboard.parsedValues data)
        (0, 0, 0, none) rfl]
      rcases hv : ChartDashboard.parsedValues data with - | ⟨v, rest⟩
      · simp
      · simp

/-- Claim C10 (confirmed): for every grid with a header row and at least
one data row, the reported maximum is at least 0 (the running maximum
starts at 0), so an all-negative grid reports maximum 0; and the
minimum is reset from the `+Infinity` sentinel to 0 exactly when no cell
parses — otherwise it is the true minimum of the parsed values. -/
theorem summary_max_floor_zero (data : List (List String))
    (s : ChartDashboard.DataSummary) (h : ChartDashboard.getDataSummary data = some s) :
    0 ≤ s.maxValue ∧
    ((∀ v ∈ ChartDashboard.parsedValues data, v < 0) → s.maxValue = 0) ∧
    (ChartDashboard.parsedValues data = [] → s.minValue = 0) ∧
    (∀ v vs, ChartDashboard.parsedValues data = v :: vs →
      s.minValue = vs.foldl min v) := by
  obtain ⟨hmax, -, hmin⟩ := getDataSummary_fields data s h
  refine ⟨?_, ?_, ?_, ?_⟩
  · rw [hmax]
    exact le_foldl_max 0 _
  · intro hneg
    rw [hmax]
    exact foldl_max_zero_of_neg _ hneg
  · intro hnil
    rw [hmin, hnil]
  · intro v vs hcons
    rw [hmin, hcons]

/-- Witness for C10: a grid whose only parsed value is negative reports
maximum 0 and minimum -3. -/
theorem summary_max_floor_zero_witness :
    0 ≤ (ChartDashboard.DataSummary.mk 1 1 1 (-3) 0 (-3)).maxValue ∧
    ((∀ v ∈ ChartDashboard.parsedValues [["H", "2022"], ["A", "-3"]], v < 0) →
      (ChartDashboard.DataSummary.mk 1 1 1 (-3) 0 (-3)).maxValue = 0) ∧
    (ChartDashboard.parsedValues [["H", "2022"], ["A", "-3"]] = [] →
      (ChartDashboard.DataSummary.mk 1 1 1 (-3) 0 (-3)).minValue = 0) ∧
    (∀ v vs, ChartDashboard.parsedValues [["H", "2022"], ["A", "-3"]] = v :: vs →
      (ChartDashboard.DataSummary.mk 1 1 1 (-3) 0 (-3)).minValue = vs.foldl min v) :=
  summary_max_floor_zero [["H", "2022"], ["A", "-3"]] ⟨1, 1, 1, -3, 0, -3⟩
    (by with_unfolding_all decide)

/-- Counterexample to claim C4: `getDataSummary` does not sanitize; the
cell "Rp 15.000" (which sanitizes to 15) is skipped, so the summary of a
grid containing it has maximum 10 from the other cell, not a value
incorporating 15. -/
theorem summary_skips_formatted_cell :
    ChartDashboard.getDataSummary [["H", "2022", "2023"], ["A", "10", "Rp 15.000"]] =
      some ⟨1, 2, 2, 10, 10, 10⟩ ∧
    sanitizeNumber "Rp 15.000" = 15 ∧ ¬ ((15 : ℚ) ≤ 10) := by
  refine ⟨?_, ?_, ?_⟩ <;> with_unfolding_all decide

/-- Claim C4 (amended): `getDataSummary` iterates every value cell
excluding the category column but parses each raw cell with `parseFloat`
and no sanitization; the statistics are exactly the fold over the cells
that parse, and a formatted cell such as "Rp 15.000" fails to parse and
is skipped even though its sanitized value would be 15. -/
theorem summary_raw_parse_skips_formatted (data : List (List String))
    (s : ChartDashboard.DataSummary) (h : ChartDashboard.getDataSummary data = some s) :
    s.maxValue = (ChartDashboard.parsedValues data).foldl max 0 ∧
    s.averageValue =
      (if ChartDashboard.parsedValues data = [] then 0
       else (ChartDashboard.parsedValues data).sum /
         ((ChartDashboard.parsedValues data).length : ℚ)) ∧
    ChartDashboard.cellParse "Rp 15.000" = none ∧
    sanitizeNumber "Rp 15.000" = 15 := by
  obtain ⟨hmax, havg, -⟩ := getDataSummary_fields data s h
  exact ⟨hmax, havg, by with_unfolding_all decide, by with_unfolding_all decide⟩

/-- Witness for C4: statistics of a grid with one numeric and one
formatted cell. -/
theorem summary_raw_parse_skips_formatted_witness :
    (ChartDashboard.DataSummary.mk 1 2 2 10 10 10).maxValue =
      (ChartDashboard.parsedValues
        [["H", "2022", "2023"], ["A", "10", "Rp 15.000"]]).foldl max 0 ∧
    (ChartDashboard.DataSummary.mk 1 2 2 10 10 10).averageValue =
      (if ChartDashboard.parsedValues
            [["H", "2022", "2023"], ["A", "10", "Rp 15.000"]] = [] then 0
       else (ChartDashboard.parsedValues
            [["H", "2022", "2023"], ["A", "10", "Rp 15.000"]]).sum /
         ((ChartDashboard.parsedValues
            [["H", "2022", "2023"], ["A", "10", "Rp 15.000"]]).length : ℚ)) ∧
    ChartDashboard.cellParse "Rp 15.000" = none ∧
    sanitizeNumber "Rp 15.000" = 15 :=
  summary_raw_parse_skips_formatted [["H", "2022", "2023"], ["A", "10", "Rp 15.000"]]
    ⟨1, 2, 2, 10, 10, 10⟩ (by with_unfolding_all decide)

/-! ## Sanitization idempotence through printing (C5) -/

theorem isDigitC_digitChar (d : ℕ) (h : d < 10) : isDigitC (digitChar d) = true := by
  interval_cases d <;> decide

theorem charVal_digitChar (d : ℕ) (h : d < 10) : charVal (digitChar d) = d := by
  interval_cases d <;> decide

theorem digitsToNat_append_singleton (l : List Char) (c : Char) :
    digitsToNat (l ++ [c]) = 10 * digitsToNat l + charVal c := by
  rw [digitsToNat, List.foldl_append]
  rfl

theorem natDigCore_spec (fuel : ℕ) :
    ∀ n ≤ fuel, (∀ c ∈ natDigCore fuel n, isDigitC c = true) ∧
      digitsToNat (natDigCore fuel n) = n ∧ (n ≠ 0 → natDigCore fuel n ≠ []) := by
  induction fuel with
  | zero =>
      intro n hn
      interval_cases n
      exact ⟨by simp [natDigCore], by simp [natDigCore, digitsToNat], by simp⟩
  | succ fuel ih =>
      intro n hn
      by_cases h0 : n = 0
      · subst h0
        exact ⟨by simp [natDigCore], by simp [natDigCore, digitsToNat], by simp⟩
      · have hdiv : n / 10 ≤ fuel := by
          have := Nat.div_lt_self (Nat.pos_of_ne_zero h0) (by norm_num : 1 < 10)
          omega
        obtain ⟨ihc, ihv, -⟩ := ih (n / 10) hdiv
        have hcore : natDigCore (fuel + 1) n =
            natDigCore fuel (n / 10) ++ [digitChar (n % 10)] := by
          rw [natDigCore, if_neg h0]
        refine ⟨?_, ?_, ?_⟩
        · intro c hc
          rw [hcore] at hc
          rcases List.mem_append.mp hc with h | h
          · exact ihc c h
          · rw [List.mem_singleton.mp h]
            exact isDigitC_digitChar _ (Nat.mod_lt n (by norm_num))
        · rw [hcore, digitsToNat_append_singleton, ihv,
            charVal_digitChar _ (Nat.mod_lt n (by norm_num))]
          omega
        · rintro -
          rw [hcore]
          simp
  
theorem natDigList_spec (n : ℕ) :
    (∀ c ∈ natDigList n, isDigitC c = true) ∧
      digitsToNat (natDigList n) = n ∧ natDigList n ≠ [] := by
  by_cases h0 : n = 0
  · subst h0
    exact ⟨by decide, by decide, by decide⟩
  · rw [natDigList, if_neg h0]
    obtain ⟨hc, hv, hne⟩ := natDigCore_spec n n le_rfl
    exact ⟨hc, hv, hne h0⟩

theorem padDigits_spec (k : ℕ) :
    ∀ m < 10 ^ k, (∀ c ∈ padDigits k m, isDigitC c = true) ∧
      digitsToNat (padDigits k m) = m ∧ (padDigits k m).length = k := by
  induction k with
  | zero =>
      intro m hm
      interval_cases m
      exact ⟨by simp [padDigits], by simp [padDigits, digitsToNat], by simp [padDigits]⟩
  | succ k ih =>
      intro m hm
      have hdiv : m / 10 < 10 ^ k := by
        rw [Nat.div_lt_iff_lt_mul (by norm_num : 0 < 10)]
        calc m < 10 ^ (k + 1) := hm
          _ = 10 ^ k * 10 := by ring
      obtain ⟨ihc, ihv, ihl⟩ := ih (m / 10) hdiv
      refine ⟨?_, ?_, ?_⟩
      · intro c hc
        rw [padDigits] at hc
        rcases List.mem_append.mp hc with h | h
        · exact ihc c h
        · rw [List.mem_singleton.mp h]
          exact isDigitC_digitChar _ (Nat.mod_lt m (by norm_num))
      · rw [padDigits, digitsToNat_append_singleton, ihv,
          charVal_digitChar _ (Nat.mod_lt m (by norm_num))]
        omega
      · rw [padDigits]
        simp [ihl]

theorem fracDigits_spec (k : ℕ) :
    ∀ m < 10 ^ k, (∀ c ∈ fracDigits k m, isDigitC c = true) ∧
      digitsToNat (fracDigits k m) * 10 ^ k = m * 10 ^ (fracDigits k m).length := by
  induction k with
  | zero =>
      intro m hm
      interval_cases m
      exact ⟨by simp [fracDigits], by simp [fracDigits, digitsToNat]⟩
  | succ k ih =>
      intro m hm
      rw [fracDigits]
      by_cases hmod : m % 10 = 0
      · rw [if_pos hmod]
        have hdiv : m / 10 < 10 ^ k := by
          rw [Nat.div_lt_iff_lt_mul (by norm_num : 0 < 10)]
          calc m < 10 ^ (k + 1) := hm
            _ = 10 ^ k * 10 := by ring
        obtain ⟨ihc, ihv⟩ := ih (m / 10) hdiv
        have hm10 : m = 10 * (m / 10) := by omega
        refine ⟨ihc, ?_⟩
        have h2 : digitsToNat (fracDigits k (m / 10)) * 10 ^ (k + 1)
            = digitsToNat (fracDigits k (m / 10)) * 10 ^ k * 10 := by ring
        rw [h2, ihv]
        generalize (fracDigits k (m / 10)).length = L
        conv_rhs => rw [hm10]
        ring
      · rw [if_neg hmod]
        obtain ⟨hc, hv, hl⟩ := padDigits_spec (k + 1) m hm
        exact ⟨hc, by rw [hv, hl]⟩

theorem fracDigits_lt (k m : ℕ) (hm : m < 10 ^ k) :
    m = 0 ∨ fracDigits k m ≠ [] := by
  by_cases h : fracDigits k m = []
  · left
    have := (fracDigits_spec k m hm).2
    rw [h] at this
    simp [digitsToNat] at this
    omega
  · exact Or.inr h

theorem takeWhile_append_all {p : Char → Bool} (l1 l2 : List Char)
    (h1 : ∀ c ∈ l1, p c = true)
    (h2 : match l2 with | [] => True | c :: _ => p c = false) :
    (l1 ++ l2).takeWhile p = l1 ∧ (l1 ++ l2).dropWhile p = l2 := by
  induction l1 with
  | nil =>
      simp only [List.nil_append]
      rcases l2 with - | ⟨c, cs⟩
      · exact ⟨rfl, rfl⟩
      · simp only at h2
        rw [List.takeWhile_cons, List.dropWhile_cons, h2]
        exact ⟨rfl, rfl⟩
  | cons a l1 ih =>
      have hpa := h1 a (List.mem_cons_self a l1)
      obtain ⟨iht, ihd⟩ := ih (fun c hc => h1 c (List.mem_cons_of_mem a hc))
      rw [List.cons_append, List.takeWhile_cons, List.dropWhile_cons, hpa]
      simp only [if_true]
      exact ⟨by rw [iht], by rw [ihd]⟩

theorem applyExp_nil (q : ℚ) : applyExp q [] = q := rfl

theorem parseFloatCore_renderDec (n k : ℕ) :
    parseFloatCore (renderDec n k) = some ((n : ℚ) / 10 ^ k) := by
  have hpow : 0 < 10 ^ k := Nat.pos_pow_of_pos k (by norm_num)
  have hm : n % 10 ^ k < 10 ^ k := Nat.mod_lt n hpow
  have hq : (10 : ℚ) ^ k ≠ 0 := by positivity
  obtain ⟨hdig, hval, hne⟩ := natDigList_spec (n / 10 ^ k)
  obtain ⟨hfdig, hfval⟩ := fracDigits_spec k (n % 10 ^ k) hm
  rcases hfd : fracDigits k (n % 10 ^ k) with - | ⟨f0, fs⟩
  · have hm0 : n % 10 ^ k = 0 := by
      rcases fracDigits_lt k (n % 10 ^ k) hm with h | h
      · exact h
      · exact absurd hfd h
    have hdvd : 10 ^ k ∣ n := Nat.dvd_of_mod_eq_zero hm0
    have hrd : renderDec n k = natDigList (n / 10 ^ k) := by
      rw [renderDec, hfd]
      simp
    obtain ⟨htw, hdw⟩ := takeWhile_append_all (natDigList (n / 10 ^ k)) [] hdig trivial
    rw [List.append_nil] at htw hdw
    rw [hrd]
    rw [parseFloatCore]
    simp only [htw, hdw]
    rw [if_neg (by simpa using hne)]
    rw [applyExp_nil, hval]
    rw [Nat.cast_div hdvd (by exact_mod_cast hq)]
    push_cast
    rfl
  · have hrd : renderDec n k = natDigList (n / 10 ^ k) ++ '.' :: (f0 :: fs) := by
      rw [renderDec, hfd]
    rw [hfd] at hfdig hfval
    obtain ⟨htw, hdw⟩ := takeWhile_append_all (natDigList (n / 10 ^ k)) ('.' :: f0 :: fs)
      hdig (show isDigitC '.' = false by decide)
    obtain ⟨htw2, hdw2⟩ := takeWhile_append_all (f0 :: fs) [] hfdig trivial
    rw [List.append_nil] at htw2 hdw2
    rw [hrd, parseFloatCore]
    simp only [htw, hdw]
    rw [if_neg (by simpa using hne)]
    simp only [htw2, hdw2, applyExp_nil, hval]
    congr 1
    have hF : (10 : ℚ) ^ (f0 :: fs).length ≠ 0 := by positivity
    have h2 : (digitsToNat (f0 :: fs) : ℚ) / 10 ^ (f0 :: fs).length =
        ((n % 10 ^ k : ℕ) : ℚ) / 10 ^ k := by
      rw [div_eq_div_iff hF hq]
      exact_mod_cast hfval
    rw [h2]
    have h3 : ((n / 10 ^ k : ℕ) : ℚ) = (((n / 10 ^ k) * 10 ^ k : ℕ) : ℚ) / 10 ^ k := by
      push_cast
      rw [mul_div_assoc, div_self hq, mul_one]
    rw [h3, div_add_div_same]
    congr 1
    have h4 : n / 10 ^ k * 10 ^ k + n % 10 ^ k = n := Nat.div_add_mod' n (10 ^ k)
    exact_mod_cast h4

/-- A decimal rational: some power-of-ten multiple is a (signed) natural.
Every value `parseFloat` can produce is of this form. -/
def IsDecimal (q : ℚ) : Prop := ∃ (n k : ℕ), q * 10 ^ k = n ∨ q * 10 ^ k = -(n : ℚ)

theorem isDecimal_zero : IsDecimal 0 := ⟨0, 0, Or.inl (by simp)⟩

theorem isDecimal_neg (q : ℚ) (h : IsDecimal q) : IsDecimal (-q) := by
  obtain ⟨n, k, hc | hc⟩ := h
  · exact ⟨n, k, Or.inr (by rw [neg_mul, hc])⟩
  · exact ⟨n, k, Or.inl (by rw [neg_mul, hc, neg_neg])⟩

theorem isDecimal_mul_zpow (q : ℚ) (z : ℤ) (h : IsDecimal q) :
    IsDecimal (q * (10 : ℚ) ^ z) := by
  obtain ⟨n, k, hc⟩ := h
  have h10 : (10 : ℚ) ≠ 0 := by norm_num
  rcases z with a | a
  · refine ⟨n * 10 ^ a, k, ?_⟩
    have : q * (10 : ℚ) ^ (Int.ofNat a) * 10 ^ k = q * 10 ^ k * 10 ^ a := by
      rw [show (Int.ofNat a) = (a : ℤ) from rfl, zpow_natCast]
      ring
    rw [this]
    push_cast
    rcases hc with hc | hc
    · exact Or.inl (by rw [hc])
    · exact Or.inr (by rw [hc]; ring)
  · refine ⟨n, k + (a + 1), ?_⟩
    have hz : q * (10 : ℚ) ^ (Int.negSucc a) * 10 ^ (k + (a + 1)) = q * 10 ^ k := by
      rw [show ((10 : ℚ) ^ (k + (a + 1)) : ℚ) = ((10 : ℚ) ^ ((k + (a + 1) : ℕ) : ℤ)) from
        (zpow_natCast 10 (k + (a + 1))).symm]
      rw [mul_assoc, ← zpow_add₀ h10]
      rw [show (Int.negSucc a + ((k + (a + 1) : ℕ) : ℤ)) = (k : ℤ) by
        rw [Int.negSucc_eq]
        push_cast
        ring]
      rw [zpow_natCast]
    rw [hz]
    exact hc

theorem isDecimal_int_add_frac (a b len : ℕ) :
    IsDecimal ((a : ℚ) + (b : ℚ) / 10 ^ len) := by
  refine ⟨a * 10 ^ len + b, len, Or.inl ?_⟩
  have hp : (10 : ℚ) ^ len ≠ 0 := by positivity
  push_cast
  field_simp

theorem isDecimal_frac (b len : ℕ) : IsDecimal ((b : ℚ) / 10 ^ len) := by
  have := isDecimal_int_add_frac 0 b len
  simpa using this

theorem isDecimal_nat (a : ℕ) : IsDecimal (a : ℚ) := by
  have := isDecimal_int_add_frac a 0 0
  simpa using this

theorem applyExp_isDecimal (q : ℚ) (l : List Char) (h : IsDecimal q) :
    IsDecimal (applyExp q l) := by
  rw [applyExp.eq_def]
  split
  · split
    · exact isDecimal_mul_zpow _ _ h
    · exact h
  · split
    · exact isDecimal_mul_zpow _ _ h
    · exact h
  · exact h

theorem parseFloatCore_isDecimal (l : List Char) (q : ℚ)
    (h : parseFloatCore l = some q) : IsDecimal q := by
  rw [parseFloatCore] at h
  split at h
  · split at h
    · simp only [] at h
      split at h
      · exact Option.noConfusion h
      · rw [Option.some.injEq] at h
        rw [← h]
        exact applyExp_isDecimal _ _ (isDecimal_frac _ _)
    · exact Option.noConfusion h
  · split at h
    · simp only [] at h
      rw [Option.some.injEq] at h
      rw [← h]
      exact applyExp_isDecimal _ _ (isDecimal_int_add_frac _ _ _)
    · rw [Option.some.injEq] at h
      rw [← h]
      exact applyExp_isDecimal _ _ (isDecimal_nat _)

theorem jsParseFloat_isDecimal (l : List Char) (q : ℚ)
    (h : jsParseFloat l = some q) : IsDecimal q := by
  rw [jsParseFloat.eq_def] at h
  split at h
  · exact parseFloatCore_isDecimal _ _ h
  · obtain ⟨w, hw, hwq⟩ := Option.map_eq_some.mp h
    rw [← hwq]
    exact isDecimal_neg _ (parseFloatCore_isDecimal _ _ hw)
  · exact parseFloatCore_isDecimal _ _ h

theorem isDecimal_den_dvd (q : ℚ) (h : IsDecimal q) : ∃ K, q.den ∣ 10 ^ K := by
  obtain ⟨n, k, hc | hc⟩ := h
  · refine ⟨k, ?_⟩
    have hq : q = Rat.divInt (n : ℤ) ((10 : ℤ) ^ k) := by
      rw [Rat.divInt_eq_div, eq_div_iff (by positivity)]
      push_cast
      exact hc
    have hd := Rat.den_dvd (n : ℤ) ((10 : ℤ) ^ k)
    rw [← hq] at hd
    have h2 : ((q.den : ℕ) : ℤ) ∣ ((10 ^ k : ℕ) : ℤ) := by push_cast; exact hd
    exact_mod_cast h2
  · refine ⟨k, ?_⟩
    have hq : q = Rat.divInt (-(n : ℤ)) ((10 : ℤ) ^ k) := by
      rw [Rat.divInt_eq_div, eq_div_iff (by positivity)]
      push_cast
      exact hc
    have hd := Rat.den_dvd (-(n : ℤ)) ((10 : ℤ) ^ k)
    rw [← hq] at hd
    have h2 : ((q.den : ℕ) : ℤ) ∣ ((10 ^ k : ℕ) : ℤ) := by push_cast; exact hd
    exact_mod_cast h2

theorem ten_smooth_exp_lt (d K : ℕ) (h : d ∣ 10 ^ K) : ∃ i, i < d ∧ d ∣ 10 ^ i := by
  have h10 : (10 : ℕ) ^ K = 2 ^ K * 5 ^ K := by
    rw [← Nat.mul_pow]
  rw [h10] at h
  obtain ⟨d1, d2, h1, h2, rfl⟩ := exists_dvd_and_dvd_of_dvd_mul h
  obtain ⟨a, -, rfl⟩ := (Nat.dvd_prime_pow Nat.prime_two).mp h1
  obtain ⟨b, -, rfl⟩ := (Nat.dvd_prime_pow (by norm_num : Nat.Prime 5)).mp h2
  have ha : a < 2 ^ a * 5 ^ b :=
    lt_of_lt_of_le (Nat.lt_two_pow a)
      (Nat.le_mul_of_pos_right _ (pow_pos (by norm_num) b))
  have hb : b < 2 ^ a * 5 ^ b := by
    have hb5 : b < 5 ^ b :=
      lt_of_lt_of_le (Nat.lt_two_pow b) (Nat.pow_le_pow_left (by norm_num) b)
    exact lt_of_lt_of_le hb5 (Nat.le_mul_of_pos_left _ (pow_pos (by norm_num) a))
  refine ⟨max a b, Nat.max_lt.mpr ⟨ha, hb⟩, ?_⟩
  have hsplit : (10 : ℕ) ^ max a b = 2 ^ max a b * 5 ^ max a b := by
    rw [← Nat.mul_pow]
  rw [hsplit]
  exact Nat.mul_dvd_mul (pow_dvd_pow 2 (le_max_left a b)) (pow_dvd_pow 5 (le_max_right a b))

theorem decExpCore_found (fuel d j : ℕ)
    (hex : ∃ i, i < fuel ∧ 10 ^ (j + i) % d = 0) :
    10 ^ decExpCore fuel d j % d = 0 := by
  induction fuel generalizing j with
  | zero =>
      obtain ⟨i, hi, -⟩ := hex
      omega
  | succ fuel ih =>
      rw [decExpCore]
      by_cases h0 : 10 ^ j % d = 0
      · rw [if_pos h0]
        exact h0
      · rw [if_neg h0]
        apply ih
        obtain ⟨i, hi, hmod⟩ := hex
        rcases i with - | i2
        · rw [Nat.add_zero] at hmod
          exact absurd hmod h0
        · refine ⟨i2, by omega, ?_⟩
          rw [show j + 1 + i2 = j + (i2 + 1) by omega]
          exact hmod

theorem decExp_dvd (d K : ℕ) (h : d ∣ 10 ^ K) : d ∣ 10 ^ decExp d := by
  obtain ⟨i, hi, hdvd⟩ := ten_smooth_exp_lt d K h
  rw [decExp]
  apply Nat.dvd_of_mod_eq_zero
  apply decExpCore_found
  refine ⟨i, hi, ?_⟩
  rw [Nat.zero_add]
  exact Nat.dvd_iff_mod_eq_zero.mp hdvd

theorem not_ws_of_allowed (c : Char) (h : isDigitC c = true ∨ c = '.' ∨ c = '-') :
    isWSChar c = false := by
  rcases h with h | h | h
  · rw [isDigitC, Bool.and_eq_true, decide_eq_true_eq, decide_eq_true_eq] at h
    rw [isWSChar]
    simp only [Bool.or_eq_false_iff, decide_eq_false_iff_not]
    omega
  · subst h
    decide
  · subst h
    decide

theorem renderDec_chars (n k : ℕ) :
    ∀ c ∈ renderDec n k, isDigitC c = true ∨ c = '.' := by
  intro c hc
  rw [renderDec] at hc
  rcases List.mem_append.mp hc with h | h
  · exact Or.inl ((natDigList_spec (n / 10 ^ k)).1 c h)
  · have hm : n % 10 ^ k < 10 ^ k :=
      Nat.mod_lt n (Nat.pos_pow_of_pos k (by norm_num))
    have hfc := (fracDigits_spec k (n % 10 ^ k) hm).1
    rcases hfd : fracDigits k (n % 10 ^ k) with - | ⟨f0, fs⟩ <;> rw [hfd] at h
    · simp at h
    · rcases List.mem_cons.mp h with h | h
      · exact Or.inr h
      · exact Or.inl (hfc c (hfd ▸ h))

theorem renderDec_ne_nil (n k : ℕ) : renderDec n k ≠ [] := by
  rw [renderDec]
  rcases hl : natDigList (n / 10 ^ k) with - | ⟨c, cs⟩
  · exact absurd hl (natDigList_spec (n / 10 ^ k)).2.2
  · simp

theorem stripChars_of_allowed (l : List Char)
    (h : ∀ c ∈ l, isDigitC c = true ∨ c = '.' ∨ c = '-') : stripChars l = l := by
  rw [stripChars, List.filter_eq_self]
  intro c hc
  rcases h c hc with h | h | h
  · simp [h]
  · simp [h]
  · simp [h]

theorem mkStr_ne_empty (l : List Char) (h : l ≠ []) : (String.mk l) ≠ "" := by
  intro hc
  exact h (by simpa using congrArg String.data hc)

theorem jsParseFloat_minus (l : List Char) :
    jsParseFloat ('-' :: l) = (parseFloatCore l).map Neg.neg := by
  rw [jsParseFloat.eq_def]
  rw [show List.dropWhile isWSChar ('-' :: l) = '-' :: l by
    rw [List.dropWhile_cons, if_neg (by decide)]]
  split
  · rename_i rest heq
    rw [List.cons.injEq] at heq
    exact absurd heq.1 (by decide)
  · rename_i rest heq
    rw [List.cons.injEq] at heq
    rw [heq.2]
  · rename_i h1 h2
    exact absurd rfl (h2 l)

theorem jsParseFloat_digit_head (c : Char) (l : List Char) (hc : isDigitC c = true) :
    jsParseFloat (c :: l) = parseFloatCore (c :: l) := by
  rw [jsParseFloat.eq_def]
  rw [show List.dropWhile isWSChar (c :: l) = c :: l by
    rw [List.dropWhile_cons,
      if_neg (by rw [not_ws_of_allowed c (Or.inl hc)]; simp)]]
  split
  · rename_i rest heq
    rw [List.cons.injEq] at heq
    rw [heq.1] at hc
    exact absurd hc (by decide)
  · rename_i rest heq
    rw [List.cons.injEq] at heq
    rw [heq.1] at hc
    exact absurd hc (by decide)
  · rfl

theorem sanitize_numToString (q : ℚ) (h : IsDecimal q)
    (hrange : q = 0 ∨ ((1 : ℚ) / 10 ^ 6 ≤ |q| ∧ |q| < 10 ^ 21)) :
    sanitizeNumber (numToString q) = q := by
  obtain ⟨K, hK⟩ := isDecimal_den_dvd q h
  have hdvd : q.den ∣ 10 ^ decExp q.den := decExp_dvd q.den K hK
  have hden0 : ((q.den : ℚ)) ≠ 0 := by exact_mod_cast q.den_pos.ne'
  have hq10 : (10 : ℚ) ^ decExp q.den ≠ 0 := by positivity
  have habs : |q| = (q.num.natAbs : ℚ) / (q.den : ℚ) := by
    conv_lhs => rw [← Rat.num_div_den q]
    rw [abs_div]
    congr 1
    · rw [Int.cast_natAbs, Int.cast_abs]
    · exact abs_of_pos (by exact_mod_cast q.den_pos)
  have hcast : ((10 ^ decExp q.den / q.den : ℕ) : ℚ) =
      (10 : ℚ) ^ decExp q.den / (q.den : ℚ) := by
    rw [Nat.cast_div hdvd hden0]
    push_cast
    rfl
  have hkey : ((q.num.natAbs * (10 ^ decExp q.den / q.den) : ℕ) : ℚ) =
      |q| * 10 ^ decExp q.den := by
    rw [Nat.cast_mul, hcast, habs]
    field_simp
  have hval : ((q.num.natAbs * (10 ^ decExp q.den / q.den) : ℕ) : ℚ) /
      10 ^ decExp q.den = |q| := by
    rw [hkey]
    field_simp
  have hcond : q.num.natAbs * (10 ^ decExp q.den / q.den) < 10 ^ (decExp q.den + 21) ∧
      (q.num.natAbs * (10 ^ decExp q.den / q.den) = 0 ∨
        10 ^ decExp q.den ≤ q.num.natAbs * (10 ^ decExp q.den / q.den) * 10 ^ 6) := by
    rcases hrange with h0 | ⟨hlo, hhi⟩
    · have habs0 : |q| = 0 := by rw [h0]; simp
      have h2 : ((q.num.natAbs * (10 ^ decExp q.den / q.den) : ℕ) : ℚ) = 0 := by
        rw [hkey, habs0, zero_mul]
      have hN : q.num.natAbs * (10 ^ decExp q.den / q.den) = 0 := by exact_mod_cast h2
      refine ⟨?_, Or.inl hN⟩
      rw [hN]
      exact Nat.pos_pow_of_pos _ (by norm_num)
    · constructor
      · have hQ : ((q.num.natAbs * (10 ^ decExp q.den / q.den) : ℕ) : ℚ) <
            ((10 ^ (decExp q.den + 21) : ℕ) : ℚ) := by
          rw [hkey]
          push_cast
          rw [pow_add]
          calc |q| * 10 ^ decExp q.den < 10 ^ 21 * 10 ^ decExp q.den :=
                mul_lt_mul_of_pos_right hhi (by positivity)
            _ = 10 ^ decExp q.den * 10 ^ 21 := by ring
        exact_mod_cast hQ
      · right
        have hQ : ((10 ^ decExp q.den : ℕ) : ℚ) ≤
            ((q.num.natAbs * (10 ^ decExp q.den / q.den) * 10 ^ 6 : ℕ) : ℚ) := by
          rw [Nat.cast_mul (q.num.natAbs * (10 ^ decExp q.den / q.den)) (10 ^ 6), hkey]
          push_cast
          calc (10 : ℚ) ^ decExp q.den
              = 1 / 10 ^ 6 * (10 ^ decExp q.den * 10 ^ 6) := by field_simp
            _ ≤ |q| * (10 ^ decExp q.den * 10 ^ 6) :=
                mul_le_mul_of_nonneg_right hlo (by positivity)
            _ = |q| * 10 ^ decExp q.den * 10 ^ 6 := by ring
        exact_mod_cast hQ
  have hstring : numToString q =
      ⟨(if q < 0 then ['-'] else []) ++
        renderDec (q.num.natAbs * (10 ^ decExp q.den / q.den)) (decExp q.den)⟩ := by
    rw [numToString, numBody, if_pos hcond]
  by_cases hq0 : q < 0
  · rw [hstring, if_pos hq0]
    rw [sanitizeNumber,
      if_neg (mkStr_ne_empty _ (by simp))]
    rw [show (String.mk (['-'] ++ renderDec (q.num.natAbs *
        (10 ^ decExp q.den / q.den)) (decExp q.den))).toList =
        '-' :: renderDec (q.num.natAbs * (10 ^ decExp q.den / q.den)) (decExp q.den)
      from rfl]
    rw [stripChars_of_allowed _ (by
      intro c hc
      rcases List.mem_cons.mp hc with h2 | h2
      · exact Or.inr (Or.inr h2)
      · rcases renderDec_chars _ _ c h2 with h2 | h2
        · exact Or.inl h2
        · exact Or.inr (Or.inl h2))]
    rw [jsParseFloat_minus, parseFloatCore_renderDec]
    simp only [Option.map_some', Option.getD_some]
    rw [hval, abs_of_neg hq0, neg_neg]
  · rw [hstring, if_neg hq0, List.nil_append]
    obtain ⟨c, cs, hc, hcons⟩ : ∃ c cs, isDigitC c = true ∧
        renderDec (q.num.natAbs * (10 ^ decExp q.den / q.den)) (decExp q.den) = c :: cs := by
      rcases hl : renderDec (q.num.natAbs * (10 ^ decExp q.den / q.den)) (decExp q.den)
        with - | ⟨c, cs⟩
      · exact absurd hl (renderDec_ne_nil _ _)
      · refine ⟨c, cs, ?_, rfl⟩
        rcases renderDec_chars _ _ c (hl ▸ List.mem_cons_self c cs) with h2 | h2
        · exact h2
        · exfalso
          have hd := (natDigList_spec ((q.num.natAbs * (10 ^ decExp q.den / q.den)) /
            10 ^ decExp q.den)).1
          have hne := (natDigList_spec ((q.num.natAbs * (10 ^ decExp q.den / q.den)) /
            10 ^ decExp q.den)).2.2
          rw [renderDec] at hl
          rcases hnl : natDigList ((q.num.natAbs * (10 ^ decExp q.den / q.den)) /
            10 ^ decExp q.den) with - | ⟨d, ds⟩
          · exact hne hnl
          · rw [hnl, List.cons_append, List.cons.injEq] at hl
            have h3 := hd d (hnl ▸ List.mem_cons_self d ds)
            rw [hl.1, h2] at h3
            exact absurd h3 (by decide)
    rw [sanitizeNumber, if_neg (mkStr_ne_empty _ (by rw [hcons]; simp))]
    rw [show (String.mk (renderDec (q.num.natAbs * (10 ^ decExp q.den / q.den))
      (decExp q.den))).toList =
      renderDec (q.num.natAbs * (10 ^ decExp q.den / q.den)) (decExp q.den) from rfl]
    rw [stripChars_of_allowed _ (by
      intro d hd
      rcases renderDec_chars _ _ d hd with h2 | h2
      · exact Or.inl h2
      · exact Or.inr (Or.inl h2))]
    rw [hcons, jsParseFloat_digit_head c cs hc, ← hcons, parseFloatCore_renderDec]
    rw [Option.getD_some, hval]
    exact abs_of_nonneg (not_lt.mp hq0)

theorem sanitizeNumber_isDecimal (x : String) : IsDecimal (sanitizeNumber x) := by
  rw [sanitizeNumber]
  split
  · exact isDecimal_zero
  · rcases hp : jsParseFloat (stripChars x.toList) with - | q
    · rw [Option.getD_none]
      exact isDecimal_zero
    · rw [Option.getD_some]
      exact jsParseFloat_isDecimal _ q hp

/-- Counterexample to claim C5 as stated: at `x = "0.0000001"` the
sanitized value is `1e-7`, `Number.prototype.toString` prints it in
exponent notation as `"1e-7"`, the second sanitization strips the `e`
leaving `"1-7"`, and `parseFloat("1-7") = 1 ≠ 1e-7`, so sanitization is
not idempotent through printing on all inputs. -/
theorem sanitize_exponent_breaks_idempotence :
    sanitizeNumber "0.0000001" = 1 / 10 ^ 7 ∧
    numToString ((1 : ℚ) / 10 ^ 7) = "1e-7" ∧
    sanitizeNumber (numToString (sanitizeNumber "0.0000001")) = 1 ∧
    (1 : ℚ) ≠ 1 / 10 ^ 7 :=
  ⟨Rat.ext (by with_unfolding_all decide) (by with_unfolding_all decide),
    by with_unfolding_all decide,
    Rat.ext (by with_unfolding_all decide) (by with_unfolding_all decide),
    fun hc => absurd (congrArg Rat.den hc) (by with_unfolding_all decide)⟩

/-- Claim C5 (amended): sanitization is idempotent through printing
whenever the sanitized value is zero or lies in the plain-decimal-notation
window of `Number.prototype.toString`, `10^-6 ≤ |v| < 10^21`; outside that
window `toString` uses exponent notation, whose `e` the sanitizer strips,
and idempotence fails (see the counterexample at `"0.0000001"`). -/
theorem sanitizeNumber_idempotent_in_plain_range (x : String)
    (h : sanitizeNumber x = 0 ∨
      ((1 : ℚ) / 10 ^ 6 ≤ |sanitizeNumber x| ∧ |sanitizeNumber x| < 10 ^ 21)) :
    sanitizeNumber (numToString (sanitizeNumber x)) = sanitizeNumber x :=
  sanitize_numToString (sanitizeNumber x) (sanitizeNumber_isDecimal x) h

/-- Witness for C5's amended theorem at the in-range input `"Rp 15.000"`,
whose sanitized value 15 lies in the plain-notation window. -/
theorem sanitizeNumber_idempotent_in_plain_range_witness :
    sanitizeNumber (numToString (sanitizeNumber "Rp 15.000")) =
      sanitizeNumber "Rp 15.000" :=
  sanitizeNumber_idempotent_in_plain_range "Rp 15.000"
    (Or.inr ⟨by with_unfolding_all decide, by with_unfolding_all decide⟩)
